import Mathlib

/-!
Shallow embedding of `src/backend/src/utils/mfa/verifyTotpOrSecretKey.ts`
(HOTP / TOTP verification, RFC 4226 / RFC 6238, plus a raw base64 secret-key
fallback path).

Modelling conventions:
* JavaScript numbers that only ever hold non-negative integers are `Nat`;
  counters are `Int` because the drift loop can pass `currentCounter - 1`.
* The bitwise operators `&` and `>>` of JavaScript coerce their operands to
  signed 32-bit integers (`ToInt32`); the embedding makes that coercion
  explicit, since the counter-serialization loop relies on it.
* `Buffer`s are `List Nat` of byte values; `Buffer.from(string)` is UTF-8
  encoding of the string.
* `createHmac(alg, key).update(msg).digest()` is an external primitive and is
  passed in as a function `hmac : key bytes → message bytes → digest bytes`.
* Fallible operations (decoding, `timingSafeEqual`) return `Except String`;
  a JavaScript `throw` is an `.error` value, `try/catch` is a `match`.
-/

/-- JavaScript `ToInt32`: reduce an integer modulo 2^32 into `[-2^31, 2^31)`. -/
def toInt32 (n : Int) : Int :=
  let u := n % 2 ^ 32
  if u < 2 ^ 31 then u else u - 2 ^ 32

/-- JavaScript `counter & 0xff` (two's-complement AND of the `ToInt32` image
with 255, which is the low byte, always in `[0, 256)`). -/
def jsAnd255 (counter : Int) : Nat :=
  (toInt32 counter % 256).toNat

/-- JavaScript `counter >> 8`: arithmetic (sign-extending) shift of the
`ToInt32` image, i.e. floor division by 256. -/
def jsShiftRight8 (counter : Int) : Int :=
  (toInt32 counter).fdiv 256

/-- The byte-filling loop of `generateHotp`
(`buffer[7 - i] = counter & 0xff; counter = counter >> 8`), unrolled from the
highest index: `counterBytesAux k c` is the list of the `k` lowest-index bytes
the loop writes when the running value at the remaining iterations is `c`. -/
def counterBytesAux : Nat → Int → List Nat
  | 0, _ => []
  | k + 1, counter => counterBytesAux k (jsShiftRight8 counter) ++ [jsAnd255 counter]

/-- The 8-byte buffer `generateHotp` feeds to the HMAC step
(lines 45–49 of the source). -/
def counterBytes (counter : Int) : List Nat :=
  counterBytesAux 8 counter

/-- `hmacResult[hmacResult.length - 1] & 0xf` — the dynamic-truncation offset.
Reading past the end of a `Buffer` yields `undefined`, which the bitwise AND
coerces to `0`, hence `List.getD _ _ 0`. -/
def dtOffset (hmacResult : List Nat) : Nat :=
  (hmacResult.getD (hmacResult.length - 1) 0) &&& 0xf

/-- RFC 4226 dynamic truncation as written in `generateHotp` (lines 54–59).
Every operand is masked to at most 31 bits before the shifts and ORs, so the
JavaScript signed 32-bit semantics of `<<` and `|` coincide with plain `Nat`
arithmetic here. -/
def dynamicTruncate (hmacResult : List Nat) : Nat :=
  let offset := dtOffset hmacResult
  (((hmacResult.getD offset 0) &&& 0x7f) <<< 24) |||
  (((hmacResult.getD (offset + 1) 0) &&& 0xff) <<< 16) |||
  (((hmacResult.getD (offset + 2) 0) &&& 0xff) <<< 8) |||
  ((hmacResult.getD (offset + 3) 0) &&& 0xff)

/-- Decimal digit characters of `n`, most significant first, computed with a
structural fuel argument (any `fuel > n` gives the digits of `n`). -/
def decimalDigitsGo (fuel n : Nat) : List Char :=
  match fuel with
  | 0 => []
  | fuel + 1 =>
    if n < 10 then [Char.ofNat (48 + n)]
    else decimalDigitsGo fuel (n / 10) ++ [Char.ofNat (48 + n % 10)]

/-- Decimal digit characters of `n`, most significant first — the JavaScript
template-literal rendering of a non-negative integer. -/
def decimalDigits (n : Nat) : List Char :=
  decimalDigitsGo (n + 1) n

/-- JavaScript string conversion of a non-negative integer. -/
def jsNumToString (n : Nat) : String :=
  String.mk (decimalDigits n)

/-- JavaScript `s.padStart(len, c)` for a one-character pad string. -/
def padStart (s : String) (len : Nat) (c : Char) : String :=
  String.mk (List.replicate (len - s.data.length) c ++ s.data)

/-- Modelled from the spec: the configuration object `AUTH_APP_PARAMS` comes
from `src/backend/src/variables`, which is not part of the given sources. The
spec fixes the reference configuration: code length 6 and a 30-second
time-step period (the source divides `Date.now()` milliseconds by
`totp_period`, so the period is stored as 30000 ms); the hash algorithm
identifier is absorbed into the externally supplied HMAC function. -/
structure AuthAppParams where
  totp_length : Nat
  totp_period : Nat

/-- Modelled from the spec: reference configuration values. -/
def AUTH_APP_PARAMS : AuthAppParams :=
  { totp_length := 6, totp_period := 30000 }

/-- Type of the external HMAC primitive
(`createHmac(AUTH_APP_PARAMS.totp_hash_algorithm, key)` applied to a message):
key bytes and message bytes to digest bytes. -/
abbrev HmacFun := List Nat → List Nat → List Nat

/-- `generateHotp` (lines 44–62 of the source): serialize the counter,
HMAC it with the secret, dynamically truncate, reduce modulo
`10 ^ totp_length` and zero-pad to `totp_length` characters. -/
def generateHotp (hmac : HmacFun) (secretKeyBuffer : List Nat) (counter : Int) : String :=
  let buffer := counterBytes counter
  let hmacResult := hmac secretKeyBuffer buffer
  let code := dynamicTruncate hmacResult
  padStart (jsNumToString (code % 10 ^ AUTH_APP_PARAMS.totp_length))
    AUTH_APP_PARAMS.totp_length '0'

/-- Value of one RFC 4648 base32 alphabet character (`A`–`Z`, `2`–`7`). -/
def base32CharVal (c : Char) : Option Nat :=
  if 'A' ≤ c ∧ c ≤ 'Z' then some (c.toNat - 65)
  else if '2' ≤ c ∧ c ≤ '7' then some (c.toNat - 50 + 26)
  else none

/-- Repack a stream of `w`-bit groups into 8-bit bytes, dropping a final
group of fewer than 8 leftover bits (the common base32/base64 bit-packing
step). `acc` holds `bits` accumulated bits. -/
def packBitsGo (w : Nat) : List Nat → Nat → Nat → List Nat
  | [], _, _ => []
  | v :: rest, acc, bits =>
    let acc2 := (acc <<< w) ||| (v % 2 ^ w)
    let bits2 := bits + w
    if 8 ≤ bits2 then
      (acc2 >>> (bits2 - 8)) :: packBitsGo w rest (acc2 % 2 ^ (bits2 - 8)) (bits2 - 8)
    else
      packBitsGo w rest acc2 bits2

/-- Repack `w`-bit groups into bytes. -/
def packBits (w : Nat) (vals : List Nat) : List Nat :=
  packBitsGo w vals 0 0

/-- Modelled from the spec: `customBase32Decode` is imported from
`src/backend/src/utils/mfa/base32EncodeAndDecode.ts`, which is not among the
given sources; the spec specifies `decode_base32(text) -> byte_sequence`,
failing with a decode error on invalid characters or padding. Trailing `=`
padding is accepted; any other character outside the RFC 4648 base32
alphabet, or a `=` before the end, is a decode error (a thrown exception in
the source, an `.error` here). -/
def customBase32Decode (s : String) : Except String (List Nat) :=
  let body := s.data.takeWhile (fun c => c ≠ '=')
  let rest := s.data.drop body.length
  if rest.all (fun c => c = '=') then
    match body.mapM base32CharVal with
    | some vals => .ok (packBits 5 vals)
    | none => .error "Invalid base32 character"
  else
    .error "Invalid base32 padding"

/-- `generateTotp` (lines 64–67 of the source): decode the stored secret and
delegate to `generateHotp`. A decode failure propagates (there is no
`try/catch` here). -/
def generateTotp (hmac : HmacFun) (dbSecretKey : String) (counter : Int) :
    Except String String :=
  match customBase32Decode dbSecretKey with
  | .error e => .error e
  | .ok secretKeyBuffer => .ok (generateHotp hmac secretKeyBuffer counter)

/-- UTF-8 encoding of one character (what `Buffer.from(string)` does
byte-wise). -/
def utf8EncodeChar (c : Char) : List Nat :=
  let n := c.toNat
  if n < 0x80 then [n]
  else if n < 0x800 then
    [0xC0 ||| (n >>> 6), 0x80 ||| (n &&& 0x3F)]
  else if n < 0x10000 then
    [0xE0 ||| (n >>> 12), 0x80 ||| ((n >>> 6) &&& 0x3F), 0x80 ||| (n &&& 0x3F)]
  else
    [0xF0 ||| (n >>> 18), 0x80 ||| ((n >>> 12) &&& 0x3F),
     0x80 ||| ((n >>> 6) &&& 0x3F), 0x80 ||| (n &&& 0x3F)]

/-- UTF-8 bytes of a character list. -/
def utf8Bytes : List Char → List Nat
  | [] => []
  | c :: cs => utf8EncodeChar c ++ utf8Bytes cs

/-- `Buffer.from(s)`: the UTF-8 bytes of `s`. -/
def bufferFromString (s : String) : List Nat :=
  utf8Bytes s.data

/-- Type of the external constant-time comparison primitive. -/
abbrev CtEqFun := List Nat → List Nat → Except String Bool

/-- Node's `crypto.timingSafeEqual`: byte-for-byte equality of two
equal-length buffers; throws `ERR_CRYPTO_TIMING_SAFE_EQUAL_LENGTH` when the
lengths differ. -/
def timingSafeEqual (a b : List Nat) : Except String Bool :=
  if a.length = b.length then .ok (decide (a = b))
  else .error "Input buffers must have the same byte length"

/-- The drift-window loop of `verifyTotp` (lines 98–115 of the source),
iterating over the list of `errorWindow` values `[1, ..., window]`. Each
comparison is the JavaScript short-circuit
`length check && timingSafeEqual(...)`. -/
def verifyTotpDriftLoop (hmac : HmacFun) (tse : CtEqFun) (dbSecretKey : String)
    (userTotpBuffer : List Nat) (currentCounter : Int) :
    List Nat → Except String Bool
  | [] => .ok false
  | errorWindow :: rest =>
    match generateTotp hmac dbSecretKey (currentCounter - errorWindow) with
    | .error e => .error e
    | .ok serverTotpPrev =>
      match generateTotp hmac dbSecretKey (currentCounter + errorWindow) with
      | .error e => .error e
      | .ok serverTotpNext =>
        match (if userTotpBuffer.length = (bufferFromString serverTotpPrev).length then
                 tse userTotpBuffer (bufferFromString serverTotpPrev)
               else .ok false) with
        | .error e => .error e
        | .ok true => .ok true
        | .ok false =>
          match (if userTotpBuffer.length = (bufferFromString serverTotpNext).length then
                   tse userTotpBuffer (bufferFromString serverTotpNext)
                 else .ok false) with
          | .error e => .error e
          | .ok true => .ok true
          | .ok false =>
            verifyTotpDriftLoop hmac tse dbSecretKey userTotpBuffer currentCounter rest

/-- `verifyTotp` (lines 74–119 of the source). `now` is `Date.now()` in
milliseconds; the hard-coded drift window is 1, so the loop runs over
`(List.range 1).map (fun i => i + 1) = [1]`. There is no `try/catch`:
a decode error raised by `generateTotp` escapes as `.error`. -/
def verifyTotp (hmac : HmacFun) (tse : CtEqFun) (userTotp dbSecretKey : String)
    (now : Nat) : Except String Bool :=
  match generateTotp hmac dbSecretKey ((now / AUTH_APP_PARAMS.totp_period : Nat) : Int) with
  | .error e => .error e
  | .ok serverTotpCurr =>
    if (bufferFromString userTotp).length ≠ (bufferFromString serverTotpCurr).length then
      .ok false
    else
      match tse (bufferFromString userTotp) (bufferFromString serverTotpCurr) with
      | .error e => .error e
      | .ok true => .ok true
      | .ok false =>
        verifyTotpDriftLoop hmac tse dbSecretKey (bufferFromString userTotp)
          ((now / AUTH_APP_PARAMS.totp_period : Nat) : Int)
          ((List.range 1).map (fun i => i + 1))

/-- Value of one RFC 4648 base64 alphabet character. -/
def base64CharVal (c : Char) : Option Nat :=
  if 'A' ≤ c ∧ c ≤ 'Z' then some (c.toNat - 65)
  else if 'a' ≤ c ∧ c ≤ 'z' then some (c.toNat - 97 + 26)
  else if '0' ≤ c ∧ c ≤ '9' then some (c.toNat - 48 + 52)
  else if c = '+' then some 62
  else if c = '/' then some 63
  else none

/-- Modelled from the spec: `Buffer.from(text, "base64")` is consumed as the
external collaborator `decode_base64(text) -> byte_sequence`, which fails
with a decode error on invalid characters or padding. Trailing `=` padding is
accepted; any other character outside the base64 alphabet, or a `=` before
the end, is a decode error. -/
def base64Decode (s : String) : Except String (List Nat) :=
  let body := s.data.takeWhile (fun c => c ≠ '=')
  let rest := s.data.drop body.length
  if rest.all (fun c => c = '=') then
    match body.mapM base64CharVal with
    | some vals => .ok (packBits 6 vals)
    | none => .error "Invalid base64 character"
  else
    .error "Invalid base64 padding"

/-- `verifySecretKey` (lines 124–147 of the source): decode both sides from
base64, reject on a length mismatch, otherwise compare in constant time; the
surrounding `try/catch` converts any thrown error into `false`. -/
def verifySecretKey (tse : CtEqFun) (userSecretKey dbSecretKey : String) : Bool :=
  let attempt : Except String Bool :=
    match base64Decode userSecretKey with
    | .error e => .error e
    | .ok userSecretKeyBuffer =>
      match base64Decode dbSecretKey with
      | .error e => .error e
      | .ok dbSecretKeyBuffer =>
        if userSecretKeyBuffer.length ≠ dbSecretKeyBuffer.length then .ok false
        else tse userSecretKeyBuffer dbSecretKeyBuffer
  match attempt with
  | .ok isEqual => isEqual
  | .error _ => false

/-- The spec's counter serialization (for the refinement claim about the
byte-filling loop): byte `i` of the message is
`floor(counter / 256 ^ (7 - i)) mod 256`. -/
def bigEndian8 (counter : Nat) : List Nat :=
  (List.range 8).map (fun i => counter / 256 ^ (7 - i) % 256)

/-- Numeric value of a decimal digit string (digit characters, most
significant first). -/
def decimalValue (l : List Char) : Nat :=
  l.foldl (fun acc c => 10 * acc + (c.toNat - 48)) 0

/-- A concrete instance of the external HMAC primitive (constant all-zero
32-byte digest, the output length of the configured 256-bit hash), used to
evaluate the verifier at concrete inputs. -/
def zeroHmac : HmacFun := fun _ _ => List.replicate 32 0

/-! ### Lemmas about decimal rendering and padding -/

theorem decimalDigitsGo_congr (f1 : Nat) : ∀ f2 n : Nat, n < f1 → n < f2 →
    decimalDigitsGo f1 n = decimalDigitsGo f2 n := by
  induction f1 with
  | zero => intro f2 n h1 _; omega
  | succ k ih =>
    intro f2 n h1 h2
    cases f2 with
    | zero => omega
    | succ m =>
      rw [decimalDigitsGo, decimalDigitsGo]
      by_cases h : n < 10
      · rw [if_pos h, if_pos h]
      · rw [if_neg h, if_neg h]
        have hlt : n / 10 < n := Nat.div_lt_self (by omega) (by omega)
        rw [ih m (n / 10) (by omega) (by omega)]

theorem decimalDigits_lt (n : Nat) (h : n < 10) :
    decimalDigits n = [Char.ofNat (48 + n)] := by
  rw [decimalDigits, decimalDigitsGo]
  simp [h]

theorem decimalDigits_ge (n : Nat) (h : ¬ n < 10) :
    decimalDigits n = decimalDigits (n / 10) ++ [Char.ofNat (48 + n % 10)] := by
  rw [decimalDigits, decimalDigits, decimalDigitsGo]
  rw [if_neg h]
  have hlt : n / 10 < n := Nat.div_lt_self (by omega) (by omega)
  rw [decimalDigitsGo_congr n (n / 10 + 1) (n / 10) (by omega) (by omega)]

theorem toNat_digitChar (r : Nat) (h : r < 10) : (Char.ofNat (48 + r)).toNat = 48 + r := by
  interval_cases r <;> decide

theorem decimalValue_append (l : List Char) (c : Char) :
    decimalValue (l ++ [c]) = 10 * decimalValue l + (c.toNat - 48) := by
  simp [decimalValue, List.foldl_append]

theorem decimalValue_decimalDigits (n : Nat) : decimalValue (decimalDigits n) = n := by
  induction n using Nat.strong_induction_on with
  | _ n ih =>
    by_cases h : n < 10
    · rw [decimalDigits_lt n h]
      simp [decimalValue, toNat_digitChar n h]
    · rw [decimalDigits_ge n h, decimalValue_append,
        ih (n / 10) (Nat.div_lt_self (by omega) (by omega)),
        toNat_digitChar (n % 10) (Nat.mod_lt _ (by omega))]
      omega

theorem decimalDigits_toNat_bounds (n : Nat) :
    ∀ c ∈ decimalDigits n, 48 ≤ c.toNat ∧ c.toNat ≤ 57 := by
  induction n using Nat.strong_induction_on with
  | _ n ih =>
    by_cases h : n < 10
    · rw [decimalDigits_lt n h]
      intro c hc
      rw [List.mem_singleton] at hc
      subst hc
      rw [toNat_digitChar n h]
      omega
    · rw [decimalDigits_ge n h]
      intro c hc
      rcases List.mem_append.mp hc with h1 | h2
      · exact ih (n / 10) (Nat.div_lt_self (by omega) (by omega)) c h1
      · rw [List.mem_singleton] at h2
        subst h2
        rw [toNat_digitChar (n % 10) (Nat.mod_lt _ (by omega))]
        omega

theorem decimalDigits_length_le (k : Nat) : ∀ n, 1 ≤ k → n < 10 ^ k → (decimalDigits n).length ≤ k := by
  induction k with
  | zero => intro n h0 hn; omega
  | succ k ih =>
    intro n _ hn
    by_cases h : n < 10
    · rw [decimalDigits_lt n h]
      simp only [List.length_singleton]
      omega
    · rw [decimalDigits_ge n h]
      have hk1 : 1 ≤ k := by
        rcases Nat.eq_zero_or_pos k with rfl | hpos
        · norm_num at hn
          omega
        · exact hpos
      have hdiv : n / 10 < 10 ^ k := by
        rw [Nat.div_lt_iff_lt_mul (by omega)]
        calc n < 10 ^ (k + 1) := hn
        _ = 10 ^ k * 10 := by rw [Nat.pow_succ]
      have := ih (n / 10) hk1 hdiv
      simp only [List.length_append, List.length_singleton]
      omega

theorem padStart_data (s : String) (len : Nat) (c : Char) :
    (padStart s len c).data = List.replicate (len - s.data.length) c ++ s.data := rfl

theorem padStart_length (s : String) (len : Nat) (c : Char) (h : s.data.length ≤ len) :
    (padStart s len c).data.length = len := by
  rw [padStart_data]
  simp only [List.length_append, List.length_replicate]
  omega

theorem decimalValue_replicate_zero (k : Nat) (l : List Char) :
    decimalValue (List.replicate k '0' ++ l) = decimalValue l := by
  induction k with
  | zero => simp
  | succ k ih =>
    rw [List.replicate_succ, List.cons_append]
    have h0 : decimalValue ('0' :: (List.replicate k '0' ++ l)) =
        decimalValue (List.replicate k '0' ++ l) := by
      simp [decimalValue]
    rw [h0, ih]

/-! ### Lemmas about the 32-bit coercions in the counter loop -/

theorem toInt32_ofNat (n : Nat) (h : n < 2 ^ 31) : toInt32 (n : Int) = (n : Int) := by
  have h1 : (n : Int) % 2 ^ 32 = (n : Int) := Int.emod_eq_of_lt (by omega) (by omega)
  simp only [toInt32, h1]
  rw [if_pos (by omega)]

theorem jsAnd255_ofNat (n : Nat) (h : n < 2 ^ 31) : jsAnd255 (n : Int) = n % 256 := by
  simp only [jsAnd255, toInt32_ofNat n h]
  omega

theorem jsShiftRight8_ofNat (n : Nat) (h : n < 2 ^ 31) :
    jsShiftRight8 (n : Int) = ((n / 256 : Nat) : Int) := by
  simp only [jsShiftRight8, toInt32_ofNat n h]
  rw [Int.fdiv_eq_ediv _ (by omega)]
  omega

theorem counterBytesAux_ofNat (k : Nat) : ∀ n : Nat, n < 2 ^ 31 →
    counterBytesAux k (n : Int) = (List.range k).map (fun i => n / 256 ^ (k - 1 - i) % 256) := by
  induction k with
  | zero => intro n h; simp [counterBytesAux]
  | succ k ih =>
    intro n h
    have hd : n / 256 < 2 ^ 31 := lt_of_le_of_lt (Nat.div_le_self _ _) h
    simp only [counterBytesAux, jsShiftRight8_ofNat n h, jsAnd255_ofNat n h, ih (n / 256) hd]
    rw [List.range_succ]
    simp only [List.map_append, List.map_cons, List.map_nil]
    congr 1
    · apply List.map_congr_left
      intro i hi
      have hik : i < k := List.mem_range.mp hi
      have hexp : k - 1 - i + 1 = k + 1 - 1 - i := by omega
      rw [Nat.div_div_eq_div_mul, ← pow_succ', hexp]
    · simp

theorem counterBytes_eq_bigEndian8 (n : Nat) (h : n < 2 ^ 31) :
    counterBytes (n : Int) = bigEndian8 n := by
  rw [counterBytes, counterBytesAux_ofNat 8 n h, bigEndian8]

theorem counterBytesAux_length (k : Nat) : ∀ c : Int, (counterBytesAux k c).length = k := by
  induction k with
  | zero => intro c; rfl
  | succ k ih => intro c; simp [counterBytesAux, ih]

theorem counterBytes_length (c : Int) : (counterBytes c).length = 8 :=
  counterBytesAux_length 8 c

theorem generateHotp_data (hmac : HmacFun) (key : List Nat) (counter : Int) :
    (generateHotp hmac key counter).data =
      List.replicate (AUTH_APP_PARAMS.totp_length -
          (decimalDigits (dynamicTruncate (hmac key (counterBytes counter)) %
            10 ^ AUTH_APP_PARAMS.totp_length)).length) '0' ++
        decimalDigits (dynamicTruncate (hmac key (counterBytes counter)) %
          10 ^ AUTH_APP_PARAMS.totp_length) := rfl

theorem generateHotp_length (hmac : HmacFun) (key : List Nat) (counter : Int) :
    (generateHotp hmac key counter).data.length = AUTH_APP_PARAMS.totp_length := by
  have hm : dynamicTruncate (hmac key (counterBytes counter)) % 10 ^ 6 < 10 ^ 6 :=
    Nat.mod_lt _ (by norm_num)
  have hlen : (decimalDigits (dynamicTruncate (hmac key (counterBytes counter)) % 10 ^ 6)).length ≤ 6 :=
    decimalDigits_length_le 6 _ (by omega) hm
  rw [generateHotp_data]
  simp only [List.length_append, List.length_replicate]
  have h6 : AUTH_APP_PARAMS.totp_length = 6 := rfl
  rw [h6]
  omega

theorem generateHotp_digit_bounds (hmac : HmacFun) (key : List Nat) (counter : Int) :
    ∀ c ∈ (generateHotp hmac key counter).data, 48 ≤ c.toNat ∧ c.toNat ≤ 57 := by
  intro c hc
  rw [generateHotp_data] at hc
  rcases List.mem_append.mp hc with h1 | h2
  · have : c = '0' := List.eq_of_mem_replicate h1
    subst this
    constructor <;> decide
  · exact decimalDigits_toNat_bounds _ c h2

theorem generateHotp_value (hmac : HmacFun) (key : List Nat) (counter : Int) :
    decimalValue (generateHotp hmac key counter).data =
      dynamicTruncate (hmac key (counterBytes counter)) % 10 ^ AUTH_APP_PARAMS.totp_length := by
  rw [generateHotp_data, decimalValue_replicate_zero, decimalValue_decimalDigits]

theorem generateHotp_ascii (hmac : HmacFun) (key : List Nat) (counter : Int) :
    ∀ c ∈ (generateHotp hmac key counter).data, c.toNat < 128 :=
  fun c hc => lt_of_le_of_lt (generateHotp_digit_bounds hmac key counter c hc).2 (by norm_num)

theorem utf8EncodeChar_ascii (c : Char) (h : c.toNat < 128) : utf8EncodeChar c = [c.toNat] := by
  simp [utf8EncodeChar, h]

theorem utf8Bytes_ascii (l : List Char) (h : ∀ c ∈ l, c.toNat < 128) :
    utf8Bytes l = l.map Char.toNat := by
  induction l with
  | nil => rfl
  | cons c cs ih =>
    rw [utf8Bytes, utf8EncodeChar_ascii c (h c (by simp)),
      ih (fun d hd => h d (by simp [hd]))]
    rfl

theorem utf8EncodeChar_head_high (c : Char) (h : ¬ c.toNat < 128) :
    ∃ b t, utf8EncodeChar c = b :: t ∧ Nat.testBit b 7 = true := by
  by_cases h2 : c.toNat < 0x800
  · refine ⟨0xC0 ||| (c.toNat >>> 6), [0x80 ||| (c.toNat &&& 0x3F)], ?_, ?_⟩
    · simp [utf8EncodeChar, h, h2]
    · rw [Nat.testBit_lor]
      simp [show Nat.testBit 0xC0 7 = true from by decide]
  · by_cases h3 : c.toNat < 0x10000
    · refine ⟨0xE0 ||| (c.toNat >>> 12),
        [0x80 ||| ((c.toNat >>> 6) &&& 0x3F), 0x80 ||| (c.toNat &&& 0x3F)], ?_, ?_⟩
      · simp [utf8EncodeChar, h, h2, h3]
      · rw [Nat.testBit_lor]
        simp [show Nat.testBit 0xE0 7 = true from by decide]
    · refine ⟨0xF0 ||| (c.toNat >>> 18),
        [0x80 ||| ((c.toNat >>> 12) &&& 0x3F), 0x80 ||| ((c.toNat >>> 6) &&& 0x3F),
         0x80 ||| (c.toNat &&& 0x3F)], ?_, ?_⟩
      · simp [utf8EncodeChar, h, h2, h3]
      · rw [Nat.testBit_lor]
        simp [show Nat.testBit 0xF0 7 = true from by decide]

theorem Char_toNat_inj {c d : Char} (h : c.toNat = d.toNat) : c = d := by
  have hc := Char.ofNat_toNat c
  have hd := Char.ofNat_toNat d
  rw [← hc, ← hd, h]

theorem utf8Bytes_inj_ascii (l2 : List Char) : ∀ l1 : List Char,
    (∀ c ∈ l2, c.toNat < 128) → utf8Bytes l1 = utf8Bytes l2 → l1 = l2 := by
  induction l2 with
  | nil =>
    intro l1 _ heq
    cases l1 with
    | nil => rfl
    | cons c cs =>
      exfalso
      simp only [utf8Bytes] at heq
      by_cases hc : c.toNat < 128
      · rw [utf8EncodeChar_ascii c hc] at heq
        simp at heq
      · obtain ⟨b, t, hbt, _⟩ := utf8EncodeChar_head_high c hc
        rw [hbt] at heq
        simp at heq
  | cons d ds ih =>
    intro l1 hasc heq
    have hd : d.toNat < 128 := hasc d (by simp)
    simp only [utf8Bytes] at heq
    rw [utf8EncodeChar_ascii d hd] at heq
    cases l1 with
    | nil => simp [utf8Bytes] at heq
    | cons c cs =>
      simp only [utf8Bytes] at heq
      by_cases hc : c.toNat < 128
      · rw [utf8EncodeChar_ascii c hc] at heq
        simp only [List.cons_append, List.nil_append, List.cons.injEq] at heq
        obtain ⟨h1, h2⟩ := heq
        rw [Char_toNat_inj h1, ih cs (fun e he => hasc e (by simp [he])) h2]
      · exfalso
        obtain ⟨b, t, hbt, hbit⟩ := utf8EncodeChar_head_high c hc
        rw [hbt] at heq
        simp only [List.cons_append, List.nil_append, List.cons.injEq] at heq
        have : Nat.testBit d.toNat 7 = false := Nat.testBit_lt_two_pow (by omega)
        rw [← heq.1] at this
        rw [hbit] at this
        simp at this

theorem bufferFromString_inj_ascii (u t : String) (h : ∀ c ∈ t.data, c.toNat < 128) :
    bufferFromString u = bufferFromString t ↔ u = t := by
  constructor
  · intro he
    have h2 := congrArg String.mk (utf8Bytes_inj_ascii t.data u.data h he)
    exact h2
  · intro he
    rw [he]

theorem dtOffset_le (digest : List Nat) : dtOffset digest ≤ 15 := Nat.and_le_right

theorem dynamicTruncate_lt (digest : List Nat) : dynamicTruncate digest < 2 ^ 31 := by
  have h1 : ((digest.getD (dtOffset digest) 0) &&& 0x7f) <<< 24 < 2 ^ 31 := by
    have hb := Nat.and_lt_two_pow (digest.getD (dtOffset digest) 0)
      (show (0x7f : Nat) < 2 ^ 7 by norm_num)
    calc ((digest.getD (dtOffset digest) 0) &&& 0x7f) <<< 24 < 2 ^ (7 + 24) :=
      Nat.shiftLeft_lt hb
    _ = 2 ^ 31 := by norm_num
  have h2 : ((digest.getD (dtOffset digest + 1) 0) &&& 0xff) <<< 16 < 2 ^ 31 := by
    have hb := Nat.and_lt_two_pow (digest.getD (dtOffset digest + 1) 0)
      (show (0xff : Nat) < 2 ^ 8 by norm_num)
    calc ((digest.getD (dtOffset digest + 1) 0) &&& 0xff) <<< 16 < 2 ^ (8 + 16) :=
      Nat.shiftLeft_lt hb
    _ ≤ 2 ^ 31 := Nat.pow_le_pow_right (by omega) (by omega)
  have h3 : ((digest.getD (dtOffset digest + 2) 0) &&& 0xff) <<< 8 < 2 ^ 31 := by
    have hb := Nat.and_lt_two_pow (digest.getD (dtOffset digest + 2) 0)
      (show (0xff : Nat) < 2 ^ 8 by norm_num)
    calc ((digest.getD (dtOffset digest + 2) 0) &&& 0xff) <<< 8 < 2 ^ (8 + 8) :=
      Nat.shiftLeft_lt hb
    _ ≤ 2 ^ 31 := Nat.pow_le_pow_right (by omega) (by omega)
  have h4 : (digest.getD (dtOffset digest + 3) 0) &&& 0xff < 2 ^ 31 := by
    have hb := Nat.and_lt_two_pow (digest.getD (dtOffset digest + 3) 0)
      (show (0xff : Nat) < 2 ^ 8 by norm_num)
    omega
  simp only [dynamicTruncate]
  exact Nat.or_lt_two_pow (Nat.or_lt_two_pow (Nat.or_lt_two_pow h1 h2) h3) h4

theorem generateTotp_of_decode (hmac : HmacFun) (db : String) (key : List Nat)
    (hdec : customBase32Decode db = .ok key) (c : Int) :
    generateTotp hmac db c = .ok (generateHotp hmac key c) := by
  rw [generateTotp, hdec]

theorem timingSafeEqual_of_length (a b : List Nat) (h : a.length = b.length) :
    timingSafeEqual a b = .ok (decide (a = b)) := by
  rw [timingSafeEqual, if_pos h]

theorem bufferFromString_generateHotp (hmac : HmacFun) (key : List Nat) (counter : Int) :
    bufferFromString (generateHotp hmac key counter) =
      (generateHotp hmac key counter).data.map Char.toNat :=
  utf8Bytes_ascii _ (generateHotp_ascii hmac key counter)

theorem bufferFromString_generateHotp_length (hmac : HmacFun) (key : List Nat) (counter : Int) :
    (bufferFromString (generateHotp hmac key counter)).length = AUTH_APP_PARAMS.totp_length := by
  rw [bufferFromString_generateHotp, List.length_map]
  exact generateHotp_length hmac key counter

theorem buffer_eq_code_iff (hmac : HmacFun) (key : List Nat) (counter : Int) (user : String) :
    (bufferFromString user = bufferFromString (generateHotp hmac key counter)) ↔
      user = generateHotp hmac key counter :=
  bufferFromString_inj_ascii user _ (generateHotp_ascii hmac key counter)

theorem verifyTotpDriftLoop_nil (hmac : HmacFun) (tse : CtEqFun) (db : String)
    (uB : List Nat) (cc : Int) :
    verifyTotpDriftLoop hmac tse db uB cc [] = .ok false := rfl

theorem verifyTotpDriftLoop_cons (hmac : HmacFun) (db : String) (key : List Nat)
    (hdec : customBase32Decode db = .ok key) (uB : List Nat) (cc : Int) (w : Nat)
    (rest : List Nat)
    (hlp : uB.length = (bufferFromString (generateHotp hmac key (cc - w))).length)
    (hln : uB.length = (bufferFromString (generateHotp hmac key (cc + w))).length) :
    verifyTotpDriftLoop hmac timingSafeEqual db uB cc (w :: rest) =
      if uB = bufferFromString (generateHotp hmac key (cc - w)) then .ok true
      else if uB = bufferFromString (generateHotp hmac key (cc + w)) then .ok true
      else verifyTotpDriftLoop hmac timingSafeEqual db uB cc rest := by
  rw [verifyTotpDriftLoop]
  simp only [generateTotp_of_decode hmac db key hdec]
  rw [if_pos hlp, timingSafeEqual_of_length _ _ hlp]
  by_cases he1 : uB = bufferFromString (generateHotp hmac key (cc - w))
  · simp [he1]
  · simp only [decide_eq_false he1, if_neg he1]
    rw [if_pos hln, timingSafeEqual_of_length _ _ hln]
    by_cases he2 : uB = bufferFromString (generateHotp hmac key (cc + w))
    · simp [he2]
    · simp only [decide_eq_false he2, if_neg he2]

theorem verifyTotp_of_decode (hmac : HmacFun) (user db : String) (now : Nat)
    (key : List Nat) (hdec : customBase32Decode db = .ok key) :
    verifyTotp hmac timingSafeEqual user db now =
      .ok (decide (user = generateHotp hmac key ((now / AUTH_APP_PARAMS.totp_period : Nat) : Int)) ||
           decide (user = generateHotp hmac key (((now / AUTH_APP_PARAMS.totp_period : Nat) : Int) - 1)) ||
           decide (user = generateHotp hmac key (((now / AUTH_APP_PARAMS.totp_period : Nat) : Int) + 1))) := by
  have hB : ∀ c : Int, (bufferFromString (generateHotp hmac key c)).length =
      AUTH_APP_PARAMS.totp_length := fun c => bufferFromString_generateHotp_length hmac key c
  rw [verifyTotp]
  simp only [generateTotp_of_decode hmac db key hdec]
  set cc : Int := ((now / AUTH_APP_PARAMS.totp_period : Nat) : Int) with hcc
  by_cases hl : (bufferFromString user).length =
      (bufferFromString (generateHotp hmac key cc)).length
  · simp only [hl, ne_eq, not_true_eq_false, if_false]
    rw [timingSafeEqual_of_length _ _ hl]
    by_cases he0 : bufferFromString user = bufferFromString (generateHotp hmac key cc)
    · have hu0 : user = generateHotp hmac key cc := (buffer_eq_code_iff hmac key cc user).mp he0
      simp [he0, hu0]
    · have hu0 : ¬ user = generateHotp hmac key cc :=
        fun h => he0 ((buffer_eq_code_iff hmac key cc user).mpr h)
      simp only [decide_eq_false he0]
      rw [show (List.range 1).map (fun i => i + 1) = [1] from rfl]
      have hlp : (bufferFromString user).length =
          (bufferFromString (generateHotp hmac key (cc - (1 : Nat)))).length := by
        rw [hl, hB cc, hB (cc - (1 : Nat))]
      have hln : (bufferFromString user).length =
          (bufferFromString (generateHotp hmac key (cc + (1 : Nat)))).length := by
        rw [hl, hB cc, hB (cc + (1 : Nat))]
      rw [verifyTotpDriftLoop_cons hmac db key hdec _ cc 1 [] hlp hln]
      simp only [Nat.cast_one] at *
      by_cases he1 : bufferFromString user = bufferFromString (generateHotp hmac key (cc - 1))
      · have hu1 : user = generateHotp hmac key (cc - 1) :=
          (buffer_eq_code_iff hmac key (cc - 1) user).mp he1
        simp [he1, hu1, hu0]
      · have hu1 : ¬ user = generateHotp hmac key (cc - 1) :=
          fun h => he1 ((buffer_eq_code_iff hmac key (cc - 1) user).mpr h)
        rw [if_neg he1]
        by_cases he2 : bufferFromString user = bufferFromString (generateHotp hmac key (cc + 1))
        · have hu2 : user = generateHotp hmac key (cc + 1) :=
            (buffer_eq_code_iff hmac key (cc + 1) user).mp he2
          simp [he2, hu2, hu0, hu1]
        · have hu2 : ¬ user = generateHotp hmac key (cc + 1) :=
            fun h => he2 ((buffer_eq_code_iff hmac key (cc + 1) user).mpr h)
          rw [if_neg he2, verifyTotpDriftLoop_nil]
          simp [hu0, hu1, hu2]
  · have hu0 : ¬ user = generateHotp hmac key cc := by
      intro h
      exact hl (by rw [h])
    have hu1 : ¬ user = generateHotp hmac key (cc - 1) := by
      intro h
      apply hl
      rw [h, hB (cc - 1), hB cc]
    have hu2 : ¬ user = generateHotp hmac key (cc + 1) := by
      intro h
      apply hl
      rw [h, hB (cc + 1), hB cc]
    simp [hl, hu0, hu1, hu2]

theorem verifyTotpDriftLoop_congr (hmac : HmacFun) (tse tse' : CtEqFun)
    (hagree : ∀ a b : List Nat, a.length = b.length → tse a b = tse' a b)
    (db : String) (uB : List Nat) (cc : Int) :
    ∀ l : List Nat, verifyTotpDriftLoop hmac tse db uB cc l =
      verifyTotpDriftLoop hmac tse' db uB cc l := by
  intro l
  induction l with
  | nil => rfl
  | cons w rest ih =>
    rw [verifyTotpDriftLoop, verifyTotpDriftLoop]
    cases hp : generateTotp hmac db (cc - w) with
    | error e => rfl
    | ok serverTotpPrev =>
      simp only []
      cases hn : generateTotp hmac db (cc + w) with
      | error e => rfl
      | ok serverTotpNext =>
        simp only []
        by_cases h1 : uB.length = (bufferFromString serverTotpPrev).length
        · rw [if_pos h1, if_pos h1, hagree _ _ h1]
          cases ht1 : tse' uB (bufferFromString serverTotpPrev) with
          | error e => rfl
          | ok b1 =>
            cases b1 with
            | true => rfl
            | false =>
              simp only []
              by_cases h2 : uB.length = (bufferFromString serverTotpNext).length
              · rw [if_pos h2, if_pos h2, hagree _ _ h2]
                cases ht2 : tse' uB (bufferFromString serverTotpNext) with
                | error e => rfl
                | ok b2 =>
                  cases b2 with
                  | true => rfl
                  | false => exact ih
              · rw [if_neg h2, if_neg h2]
                exact ih
        · rw [if_neg h1, if_neg h1]
          simp only []
          by_cases h2 : uB.length = (bufferFromString serverTotpNext).length
          · rw [if_pos h2, if_pos h2, hagree _ _ h2]
            cases ht2 : tse' uB (bufferFromString serverTotpNext) with
            | error e => rfl
            | ok b2 =>
              cases b2 with
              | true => rfl
              | false => exact ih
          · rw [if_neg h2, if_neg h2]
            exact ih

theorem verifyTotp_congr (hmac : HmacFun) (tse tse' : CtEqFun)
    (hagree : ∀ a b : List Nat, a.length = b.length → tse a b = tse' a b)
    (userTotp dbSecretKey : String) (now : Nat) :
    verifyTotp hmac tse userTotp dbSecretKey now =
      verifyTotp hmac tse' userTotp dbSecretKey now := by
  rw [verifyTotp, verifyTotp]
  cases hg : generateTotp hmac dbSecretKey ((now / AUTH_APP_PARAMS.totp_period : Nat) : Int) with
  | error e => rfl
  | ok serverTotpCurr =>
    simp only []
    by_cases hl : (bufferFromString userTotp).length = (bufferFromString serverTotpCurr).length
    · simp only [hl, ne_eq, not_true_eq_false, if_false]
      rw [hagree _ _ hl]
      cases ht : tse' (bufferFromString userTotp) (bufferFromString serverTotpCurr) with
      | error e => rfl
      | ok b =>
        cases b with
        | true => rfl
        | false =>
          simp only []
          exact verifyTotpDriftLoop_congr hmac tse tse' hagree dbSecretKey _ _ _
    · rw [if_pos hl, if_pos hl]

theorem verifySecretKey_congr (tse tse' : CtEqFun)
    (hagree : ∀ a b : List Nat, a.length = b.length → tse a b = tse' a b)
    (userSecretKey dbSecretKey : String) :
    verifySecretKey tse userSecretKey dbSecretKey =
      verifySecretKey tse' userSecretKey dbSecretKey := by
  rw [verifySecretKey, verifySecretKey]
  cases hu : base64Decode userSecretKey with
  | error e => rfl
  | ok userSecretKeyBuffer =>
    simp only []
    cases hd : base64Decode dbSecretKey with
    | error e => rfl
    | ok dbSecretKeyBuffer =>
      simp only []
      by_cases hl : userSecretKeyBuffer.length = dbSecretKeyBuffer.length
      · simp only [hl, ne_eq, not_true_eq_false, if_false, hagree _ _ hl]
      · rw [if_pos hl, if_pos hl]

theorem customBase32Decode_error_msg (s : String) (e : String)
    (h : customBase32Decode s = .error e) :
    e = "Invalid base32 character" ∨ e = "Invalid base32 padding" := by
  rw [customBase32Decode] at h
  by_cases hp : (s.data.drop (s.data.takeWhile (fun c => c ≠ '=')).length).all (fun c => c = '=')
  · rw [if_pos hp] at h
    cases hm : (s.data.takeWhile (fun c => c ≠ '=')).mapM base32CharVal with
    | none =>
      simp only [hm] at h
      injection h with h2
      exact Or.inl h2.symm
    | some vals =>
      simp only [hm] at h
      exact Except.noConfusion h
  · rw [if_neg hp] at h
    injection h with h2
    exact Or.inr h2.symm

theorem verifyTotp_length_mismatch (hmac : HmacFun) (tse : CtEqFun)
    (userTotp dbSecretKey : String) (now : Nat) (key : List Nat)
    (hdec : customBase32Decode dbSecretKey = .ok key)
    (hne : (bufferFromString userTotp).length ≠ AUTH_APP_PARAMS.totp_length) :
    verifyTotp hmac tse userTotp dbSecretKey now = .ok false := by
  rw [verifyTotp]
  simp only [generateTotp_of_decode hmac dbSecretKey key hdec]
  rw [if_pos (fun h => hne (h.trans (bufferFromString_generateHotp_length hmac key _)))]

theorem verifyTotp_ne_tse_error (hmac : HmacFun) (userTotp dbSecretKey : String) (now : Nat) :
    verifyTotp hmac timingSafeEqual userTotp dbSecretKey now ≠
      .error "Input buffers must have the same byte length" := by
  cases hdec : customBase32Decode dbSecretKey with
  | error e =>
    rw [verifyTotp]
    simp only [generateTotp, hdec]
    intro h
    injection h with h2
    rcases customBase32Decode_error_msg dbSecretKey e hdec with he | he <;>
      · rw [h2] at he
        simp at he
  | ok key =>
    rw [verifyTotp_of_decode hmac userTotp dbSecretKey now key hdec]
    intro h
    exact Except.noConfusion h

theorem verifySecretKey_spec (u d : String) :
    verifySecretKey timingSafeEqual u d =
      match base64Decode u, base64Decode d with
      | .ok ub, .ok db2 => decide (ub = db2)
      | _, _ => false := by
  rw [verifySecretKey]
  cases hu : base64Decode u with
  | error e => rfl
  | ok userSecretKeyBuffer =>
    simp only []
    cases hd : base64Decode d with
    | error e => rfl
    | ok dbSecretKeyBuffer =>
      simp only []
      by_cases hl : userSecretKeyBuffer.length = dbSecretKeyBuffer.length
      · simp only [hl, ne_eq, not_true_eq_false, if_false, timingSafeEqual_of_length _ _ hl]
      · have hne : userSecretKeyBuffer ≠ dbSecretKeyBuffer := fun h => hl (by rw [h])
        rw [if_pos hl]
        simp [hne]

/-- Claim C1: for every user-submitted code string and every decodable server
secret, `verifyTotp` returns `true` iff the submitted code equals the
generated code for one of the counters `current`, `current - 1`,
`current + 1` (drift window 1); a code matching none of those three
candidates — in particular one matching only `current ± (window + 1)` —
yields `false`. -/
theorem claim_C1_verifyTotp_window (hmac : HmacFun) (userTotp dbSecretKey : String)
    (now : Nat) (key : List Nat)
    (hdec : customBase32Decode dbSecretKey = .ok key) :
    (verifyTotp hmac timingSafeEqual userTotp dbSecretKey now = .ok true ↔
      (userTotp = generateHotp hmac key ((now / AUTH_APP_PARAMS.totp_period : Nat) : Int) ∨
       userTotp = generateHotp hmac key (((now / AUTH_APP_PARAMS.totp_period : Nat) : Int) - 1) ∨
       userTotp = generateHotp hmac key (((now / AUTH_APP_PARAMS.totp_period : Nat) : Int) + 1))) ∧
    (userTotp ≠ generateHotp hmac key ((now / AUTH_APP_PARAMS.totp_period : Nat) : Int) →
     userTotp ≠ generateHotp hmac key (((now / AUTH_APP_PARAMS.totp_period : Nat) : Int) - 1) →
     userTotp ≠ generateHotp hmac key (((now / AUTH_APP_PARAMS.totp_period : Nat) : Int) + 1) →
     verifyTotp hmac timingSafeEqual userTotp dbSecretKey now = .ok false) := by
  rw [verifyTotp_of_decode hmac userTotp dbSecretKey now key hdec]
  constructor
  · constructor
    · intro h
      injection h with h2
      rw [Bool.or_eq_true, Bool.or_eq_true, decide_eq_true_eq, decide_eq_true_eq,
        decide_eq_true_eq] at h2
      rcases h2 with (h | h) | h
      · exact Or.inl h
      · exact Or.inr (Or.inl h)
      · exact Or.inr (Or.inr h)
    · intro h
      congr 1
      rw [Bool.or_eq_true, Bool.or_eq_true, decide_eq_true_eq, decide_eq_true_eq,
        decide_eq_true_eq]
      rcases h with h | h | h
      · exact Or.inl (Or.inl h)
      · exact Or.inl (Or.inr h)
      · exact Or.inr h
  · intro h1 h2 h3
    rw [decide_eq_false h1, decide_eq_false h2, decide_eq_false h3]
    rfl

theorem claim_C1_witness :
    verifyTotp zeroHmac timingSafeEqual "000000" "" 0 = .ok true :=
  (claim_C1_verifyTotp_window zeroHmac "000000" "" 0 [] rfl).1.mpr (Or.inl (by decide))

/-- Claim C2 is violated by the code: `verifyTotp` has no `try/catch`, so the
decode error raised on a malformed base32 server secret escapes the
verification call instead of being surfaced as `false`. This theorem
evaluates the embedded `verifyTotp` at such an input. -/
theorem claim_C2_code_bug :
    verifyTotp zeroHmac timingSafeEqual "123456" "!" 0 =
      .error "Invalid base32 character" := rfl

/-- Claim C3: `verifySecretKey` returns `true` iff both inputs decode from
base64 and the decoded byte sequences are identical; a malformed input on
either side yields `false`, never an escaping exception (the `try/catch`
converts any decode error to `false`). -/
theorem claim_C3_raw_secret (userSecretKey dbSecretKey : String) :
    (verifySecretKey timingSafeEqual userSecretKey dbSecretKey = true ↔
      (∃ u d : List Nat, base64Decode userSecretKey = .ok u ∧
        base64Decode dbSecretKey = .ok d ∧ u = d)) ∧
    ((∃ e, base64Decode userSecretKey = .error e) ∨
      (∃ e, base64Decode dbSecretKey = .error e) →
      verifySecretKey timingSafeEqual userSecretKey dbSecretKey = false) := by
  constructor
  · rw [verifySecretKey_spec]
    cases hu : base64Decode userSecretKey with
    | error e =>
      simp only []
      constructor
      · intro h
        exact Bool.noConfusion h
      · rintro ⟨u, d, hu2, -, -⟩
        exact Except.noConfusion hu2
    | ok ub =>
      cases hd : base64Decode dbSecretKey with
      | error e =>
        simp only []
        constructor
        · intro h
          exact Bool.noConfusion h
        · rintro ⟨u, d, -, hd2, -⟩
          exact Except.noConfusion hd2
      | ok db2 =>
        simp only [decide_eq_true_eq]
        constructor
        · intro h
          exact ⟨ub, db2, rfl, rfl, h⟩
        · rintro ⟨u, d, hu2, hd2, hud⟩
          injection hu2 with hu3
          injection hd2 with hd3
          rw [← hu3, ← hd3] at hud
          exact hud
  · intro herr
    rw [verifySecretKey_spec]
    rcases herr with ⟨e, he⟩ | ⟨e, he⟩
    · rw [he]
    · cases hu : base64Decode userSecretKey with
      | error e2 => rfl
      | ok ub => rw [he]

theorem claim_C3_witness :
    verifySecretKey timingSafeEqual "AA==" "AA==" = true ∧
    verifySecretKey timingSafeEqual "!" "AA==" = false :=
  ⟨(claim_C3_raw_secret "AA==" "AA==").1.mpr ⟨[0], [0], rfl, rfl, rfl⟩,
   (claim_C3_raw_secret "!" "AA==").2 (Or.inl ⟨"Invalid base64 character", rfl⟩)⟩

/-- Claim C4 as stated is false: for the 64-bit counter value 2^31 the
byte-filling loop of `generateHotp` (which uses JavaScript 32-bit `&` and
`>>`) does not produce the big-endian serialization
`byte i = counter / 256 ^ (7 - i) % 256` — sign extension fills the four
high bytes with 0xFF. -/
theorem claim_C4_counterexample :
    counterBytes ((2 ^ 31 : Nat) : Int) ≠ bigEndian8 (2 ^ 31) := by decide

/-- Claim C4 amended: for every counter below 2^31 (which covers every
counter the verifier derives from the clock until the distant future) the
loop serializes the counter as exactly 8 bytes in big-endian order, and that
is the message `generateHotp` feeds to the HMAC step. -/
theorem claim_C4_amended_bigEndian (hmac : HmacFun) (key : List Nat) (counter : Nat)
    (h : counter < 2 ^ 31) :
    (counterBytes (counter : Int)).length = 8 ∧
    counterBytes (counter : Int) = bigEndian8 counter ∧
    generateHotp hmac key (counter : Int) =
      padStart (jsNumToString (dynamicTruncate (hmac key (bigEndian8 counter)) %
        10 ^ AUTH_APP_PARAMS.totp_length)) AUTH_APP_PARAMS.totp_length '0' := by
  refine ⟨counterBytes_length _, counterBytes_eq_bigEndian8 counter h, ?_⟩
  rw [generateHotp, counterBytes_eq_bigEndian8 counter h]

theorem claim_C4_witness :
    (counterBytes ((1 : Nat) : Int)).length = 8 ∧
    counterBytes ((1 : Nat) : Int) = bigEndian8 1 ∧
    generateHotp zeroHmac [] ((1 : Nat) : Int) =
      padStart (jsNumToString (dynamicTruncate (zeroHmac [] (bigEndian8 1)) %
        10 ^ AUTH_APP_PARAMS.totp_length)) AUTH_APP_PARAMS.totp_length '0' :=
  claim_C4_amended_bigEndian zeroHmac [] 1 (by norm_num)

/-- Claim C5: for every secret and counter (and any digest the external HMAC
returns), the HOTP output has exactly `totp_length` characters, all of them
decimal digit characters (code points 48–57), and its numeric value is the
dynamically truncated HMAC value reduced modulo `10 ^ totp_length`. -/
theorem claim_C5_hotp_shape (hmac : HmacFun) (secretKeyBuffer : List Nat) (counter : Int) :
    (generateHotp hmac secretKeyBuffer counter).data.length = AUTH_APP_PARAMS.totp_length ∧
    (∀ c ∈ (generateHotp hmac secretKeyBuffer counter).data, 48 ≤ c.toNat ∧ c.toNat ≤ 57) ∧
    decimalValue (generateHotp hmac secretKeyBuffer counter).data =
      dynamicTruncate (hmac secretKeyBuffer (counterBytes counter)) %
        10 ^ AUTH_APP_PARAMS.totp_length :=
  ⟨generateHotp_length hmac secretKeyBuffer counter,
   generateHotp_digit_bounds hmac secretKeyBuffer counter,
   generateHotp_value hmac secretKeyBuffer counter⟩

/-- Claim C6: both verification paths consult the constant-time primitive
only on equal-length buffers — the result is unchanged if the primitive is
replaced by any function agreeing on equal-length inputs, the primitive's
length-mismatch error never surfaces, and a submitted code of the wrong
length is rejected with `false` for every comparison primitive (so no
comparison is performed). -/
theorem claim_C6_guarded_comparisons (hmac : HmacFun) (tse tse' : CtEqFun)
    (hagree : ∀ a b : List Nat, a.length = b.length → tse a b = tse' a b)
    (userTotp dbSecretKey userSecretKey dbRawSecret : String) (now : Nat) :
    (verifyTotp hmac tse userTotp dbSecretKey now =
      verifyTotp hmac tse' userTotp dbSecretKey now) ∧
    (verifySecretKey tse userSecretKey dbRawSecret =
      verifySecretKey tse' userSecretKey dbRawSecret) ∧
    (verifyTotp hmac timingSafeEqual userTotp dbSecretKey now ≠
      .error "Input buffers must have the same byte length") ∧
    (∀ key : List Nat, customBase32Decode dbSecretKey = .ok key →
      (bufferFromString userTotp).length ≠ AUTH_APP_PARAMS.totp_length →
      verifyTotp hmac tse userTotp dbSecretKey now = .ok false) :=
  ⟨verifyTotp_congr hmac tse tse' hagree userTotp dbSecretKey now,
   verifySecretKey_congr tse tse' hagree userSecretKey dbRawSecret,
   verifyTotp_ne_tse_error hmac userTotp dbSecretKey now,
   fun key hdec hne => verifyTotp_length_mismatch hmac tse userTotp dbSecretKey now key hdec hne⟩

theorem claim_C6_witness :
    verifyTotp zeroHmac timingSafeEqual "12345" "" 0 = .ok false :=
  (claim_C6_guarded_comparisons zeroHmac timingSafeEqual timingSafeEqual
    (fun _ _ _ => rfl) "12345" "" "A" "A" 0).2.2.2 [] rfl (by decide)

/-- Claim C8: HOTP generation is deterministic — two calls with the same
digest function, secret bytes, and counter produce identical code strings. -/
theorem claim_C8_deterministic (hmac : HmacFun) (s1 s2 : List Nat) (c1 c2 : Int)
    (hs : s1 = s2) (hc : c1 = c2) :
    generateHotp hmac s1 c1 = generateHotp hmac s2 c2 := by
  rw [hs, hc]

theorem claim_C8_witness :
    generateHotp zeroHmac [] 0 = generateHotp zeroHmac [] 0 :=
  claim_C8_deterministic zeroHmac [] [] 0 0 rfl rfl

/-- Claim C9: whenever `verifyTotp` returns `true`, the submitted string has
exactly `totp_length` characters, all decimal digits — any other shape is
rejected, because acceptance requires byte equality with a generated
zero-padded digit code. -/
theorem claim_C9_accepted_shape (hmac : HmacFun) (userTotp dbSecretKey : String)
    (now : Nat)
    (h : verifyTotp hmac timingSafeEqual userTotp dbSecretKey now = .ok true) :
    userTotp.data.length = AUTH_APP_PARAMS.totp_length ∧
    ∀ c ∈ userTotp.data, 48 ≤ c.toNat ∧ c.toNat ≤ 57 := by
  cases hdec : customBase32Decode dbSecretKey with
  | error e =>
    rw [verifyTotp] at h
    simp only [generateTotp, hdec] at h
    exact Except.noConfusion h
  | ok key =>
    rw [verifyTotp_of_decode hmac userTotp dbSecretKey now key hdec] at h
    injection h with h2
    rw [Bool.or_eq_true, Bool.or_eq_true, decide_eq_true_eq, decide_eq_true_eq,
      decide_eq_true_eq] at h2
    rcases h2 with (h2 | h2) | h2 <;>
      · rw [h2]
        exact ⟨generateHotp_length _ _ _, generateHotp_digit_bounds _ _ _⟩

theorem claim_C9_witness :
    ("000000" : String).data.length = AUTH_APP_PARAMS.totp_length ∧
    ∀ c ∈ ("000000" : String).data, 48 ≤ c.toNat ∧ c.toNat ≤ 57 :=
  claim_C9_accepted_shape zeroHmac "000000" "" 0 rfl

/-- Claim C10: for every HMAC digest of at least 20 bytes, the dynamic
truncation offset (last byte AND 0x0F) is at most 15, the four byte reads at
`offset .. offset + 3` and the read of the last byte are within bounds, and
the truncated value (a `Nat`, hence non-negative) is below 2^31. -/
theorem claim_C10_truncation_bounds (digest : List Nat) (h : 20 ≤ digest.length) :
    dtOffset digest ≤ 15 ∧
    dtOffset digest + 3 < digest.length ∧
    digest.length - 1 < digest.length ∧
    dynamicTruncate digest < 2 ^ 31 :=
  ⟨dtOffset_le digest,
   by have := dtOffset_le digest; omega,
   by omega,
   dynamicTruncate_lt digest⟩

theorem claim_C10_witness :
    dtOffset (List.replicate 32 (0 : Nat)) ≤ 15 ∧
    dtOffset (List.replicate 32 (0 : Nat)) + 3 < (List.replicate 32 (0 : Nat)).length ∧
    (List.replicate 32 (0 : Nat)).length - 1 < (List.replicate 32 (0 : Nat)).length ∧
    dynamicTruncate (List.replicate 32 (0 : Nat)) < 2 ^ 31 :=
  claim_C10_truncation_bounds (List.replicate 32 0) (by decide)
